import Mathlib

/-! Verification development for the binary-tuples segment codec.
    The definitions below are a shallow embedding of `src/constants.rs`,
    `src/utils.rs` and `src/segment.rs`.

    Modeling conventions:
    * A Rust `u8` byte is a `Nat` (every reachable byte value is below 256).
    * `f32`/`f64` values are represented by their IEEE-754 bit patterns as
      natural numbers, because the codec only ever moves their big-endian
      byte representation (`BigEndian::write_f32`/`read_f32` convert between
      a float and its bit pattern verbatim).
    * A `Uuid` is its 16 raw bytes; a Rust `String` is its UTF-8 byte list.
    * A Rust panic (out-of-bounds index or slice) is modeled by the explicit
      outcome `DResult.panic`; fallible returns are `DResult.err`. -/

namespace BinaryTuples

/-- Type code table, from `src/constants.rs`. -/
def BYTES_CODE : Nat := 0x01

def STRING_CODE : Nat := 0x02

def NESTED_CODE : Nat := 0x05

def INT_ZERO_CODE : Nat := 0x14

def INT_NEG_MIN_CODE : Nat := INT_ZERO_CODE - 8

def INT_NEG_MAX_CODE : Nat := INT_ZERO_CODE - 1

def INT_POS_MIN_CODE : Nat := INT_ZERO_CODE + 1

def INT_POS_MAX_CODE : Nat := INT_ZERO_CODE + 8

def FLOAT_CODE : Nat := 0x20

def DOUBLE_CODE : Nat := 0x21

def FALSE_CODE : Nat := 0x26

def TRUE_CODE : Nat := 0x27

def UUID_CODE : Nat := 0x30

def NULL : Nat := 0x00

def NULL_ESCAPE : Nat := 0xFF

/-- `SIZE_LIMITS` from `src/constants.rs`: `(1 << (n*8)) - 1` for `n = 0..7`
    and `u64::MAX` as the final entry. -/
def SIZE_LIMITS : List Nat :=
  [0, (1 <<< 8) - 1, (1 <<< 16) - 1, (1 <<< 24) - 1, (1 <<< 32) - 1,
   (1 <<< 40) - 1, (1 <<< 48) - 1, (1 <<< 56) - 1, 2 ^ 64 - 1]

/-- Recursive worker for `decode_byte_string` (`src/utils.rs`).  It mirrors the
    Rust loop over `input.windows(2)` with its `skip` flag: each step looks at
    one window `(a, b)` and the recursion moves the window one byte forward.
    Returned counts accumulate one byte per processed window; the fall-through
    case (fewer than two bytes left) contributes the Rust `return (read + 1,
    bytes)` executed after the window loop ends. -/
def decode_byte_string_aux : List Nat → Bool → Nat × List Nat
  | a :: b :: rest, skip =>
    if skip then
      let r := decode_byte_string_aux (b :: rest) false
      (r.1 + 1, r.2)
    else if a = NULL then
      if b ≠ NULL_ESCAPE then (1, [])
      else
        let r := decode_byte_string_aux (b :: rest) true
        (r.1 + 1, NULL :: r.2)
    else
      let r := decode_byte_string_aux (b :: rest) false
      (r.1 + 1, a :: r.2)
  | _, _ => (1, [])

/-- `decode_byte_string` from `src/utils.rs`: returns (bytes consumed,
    unescaped payload). -/
def decode_byte_string (input : List Nat) : Nat × List Nat :=
  decode_byte_string_aux input false

/-- The per-byte escaping loop inside `encode_byte_string` (`src/utils.rs`):
    every `0x00` input byte is emitted as `0x00 0xFF`, other bytes verbatim. -/
def escapeBytes : List Nat → List Nat
  | [] => []
  | b :: rest =>
    if b = NULL then NULL :: NULL_ESCAPE :: escapeBytes rest
    else b :: escapeBytes rest

/-- `encode_byte_string` from `src/utils.rs`: pushes the type code, the
    escaped payload and a trailing `0x00` terminator onto `buffer`. -/
def encode_byte_string (type_code : Nat) (input : List Nat) (buffer : List Nat) : List Nat :=
  buffer ++ type_code :: (escapeBytes input ++ [NULL])

/-- `encode_sortable_float` from `src/utils.rs`, acting on the big-endian
    bytes of a float: if the sign bit of byte 0 is set, flip every bit;
    otherwise flip only the sign bit.  (On an empty slice the Rust code would
    panic at `bytes[0]`; no caller passes one.) -/
def encode_sortable_float : List Nat → List Nat
  | [] => []
  | b0 :: rest =>
    if b0 &&& 0x80 ≠ 0x00 then (b0 :: rest).map (fun b => b ^^^ 0xff)
    else (b0 ^^^ 0x80) :: rest

/-- `decode_sortable_float` from `src/utils.rs`: inverse branch on the
    transformed sign bit. -/
def decode_sortable_float : List Nat → List Nat
  | [] => []
  | b0 :: rest =>
    if b0 &&& 0x80 ≠ 0x80 then (b0 :: rest).map (fun b => b ^^^ 0xff)
    else (b0 ^^^ 0x80) :: rest

/-- Big-endian byte representation on `n` bytes, most significant first;
    models `BigEndian::write_u64` (with `n = 8`) and `write_f32`/`write_f64`
    applied to a bit pattern (`n = 4`/`8`). -/
def beBytes : Nat → Nat → List Nat
  | 0, _ => []
  | n + 1, v => v / 256 ^ n :: beBytes n (v % 256 ^ n)

/-- Big-endian value of a byte list; models `BigEndian::read_u64` and the bit
    pattern produced by `read_f32`/`read_f64`. -/
def beNat : List Nat → Nat
  | [] => 0
  | b :: rest => b * 256 ^ rest.length + beNat rest

/-- Reinterpretation of a `u64` value as `i64` (the Rust `as i64` cast). -/
def toI64 (raw : Nat) : Int :=
  if raw < 2 ^ 63 then (raw : Int) else (raw : Int) - 2 ^ 64

example : decode_byte_string [65, 0, 7] = (2, [65]) := by decide

example : decode_byte_string [0, 255, 0, 7] = (3, [0]) := by decide

example : beBytes 4 0x3F800000 = [63, 128, 0, 0] := by decide

/-- The `Segment` enum from `src/segment.rs`.  `Float`/`Double` carry the
    IEEE-754 bit pattern, `String`/`Const` the UTF-8 bytes, `UUID` the 16
    raw bytes, `Tuple` the raw pre-encoded bytes. -/
inductive Segment where
  | Bytes : List Nat → Segment
  | String : List Nat → Segment
  | Const : List Nat → Segment
  | Nested : List Segment → Segment
  | Integer : Int → Segment
  | Float : Nat → Segment
  | Double : Nat → Segment
  | Boolean : Bool → Segment
  | UUID : List Nat → Segment
  | Tuple : List Nat → Segment

/-- `TupleError` from `src/errors.rs`; field order is (position, type_code)
    for `DecodeError`, and the single field is the position elsewhere. -/
inductive TupleError where
  | DecodeError : Nat → Nat → TupleError
  | TruncatedNestedTuple : TupleError
  | TruncatedTuple : TupleError
  | StringDecodeError : TupleError
  | IntegerDecodeError : Nat → TupleError
  | DecimalDecodeError : Nat → TupleError
  | UuidDecodeError : Nat → TupleError
deriving DecidableEq

/-- Outcome of running a fallible Rust function: `ok`, a typed `Err`, or a
    Rust panic (an out-of-bounds index or slice). -/
inductive DResult (α : Type) where
  | ok : α → DResult α
  | err : TupleError → DResult α
  | panic : DResult α

mutual

/-- `encode_slice` from `src/segment.rs`: encodes each segment in order into
    the buffer. -/
def encode_slice : List Segment → List Nat → List Nat
  | [], buffer => buffer
  | s :: rest, buffer => encode_slice rest (Segment.encode s buffer)

/-- `Segment::encode` from `src/segment.rs`.  The buffer is threaded
    explicitly; each arm appends that arm's bytes.  The `Integer` arms mirror
    the Rust guards in source order (`0`, `i64::MIN`, positive, negative; the
    final `else` is the Rust catch-all `_ => ()` which appends nothing).  The
    `Float`/`Double` arms mirror the in-place writes: push the tag and
    placeholder zero bytes, overwrite the tail with the big-endian bit
    pattern, then apply the sortable transform to that tail in place. -/
def Segment.encode : Segment → List Nat → List Nat
  | Segment.Bytes data, buffer => encode_byte_string BYTES_CODE data buffer
  | Segment.String data, buffer => encode_byte_string STRING_CODE data buffer
  | Segment.Const data, buffer => encode_byte_string STRING_CODE data buffer
  | Segment.Nested inner, buffer =>
    encode_slice inner (buffer ++ [NESTED_CODE]) ++ [NULL]
  | Segment.Integer v, buffer =>
    if v = 0 then buffer ++ [INT_ZERO_CODE]
    else if v = -(2 ^ 63) then
      (buffer ++ [INT_ZERO_CODE - 8]) ++ beBytes 8 ((2 ^ 64 - 1) >>> 1)
    else if v > 0 then
      (buffer ++
          [INT_ZERO_CODE + 8 -
            ((beBytes 8 v.toNat).takeWhile (fun x => x == 0)).length]) ++
        (beBytes 8 v.toNat).drop
          ((beBytes 8 v.toNat).takeWhile (fun x => x == 0)).length
    else if v < 0 then
      (buffer ++
          [INT_ZERO_CODE -
            (8 - ((beBytes 8 (-v).toNat).takeWhile (fun x => x == 0)).length)]) ++
        (beBytes 8
            (SIZE_LIMITS.getD
                (8 - ((beBytes 8 (-v).toNat).takeWhile (fun x => x == 0)).length) 0 -
              (-v).toNat)).drop
          ((beBytes 8 (-v).toNat).takeWhile (fun x => x == 0)).length
    else buffer
  | Segment.Tuple value, buffer => buffer ++ value
  | Segment.Boolean value, buffer =>
    if value then buffer ++ [TRUE_CODE] else buffer ++ [FALSE_CODE]
  | Segment.UUID value, buffer => (buffer ++ [UUID_CODE]) ++ value
  | Segment.Float value, buffer =>
    ((buffer ++ [FLOAT_CODE]) ++ [0, 0, 0, 0]).take
        (((buffer ++ [FLOAT_CODE]) ++ [0, 0, 0, 0]).length - 4) ++
      encode_sortable_float (beBytes 4 value)
  | Segment.Double value, buffer =>
    ((buffer ++ [DOUBLE_CODE]) ++ [0, 0, 0, 0, 0, 0, 0, 0]).take
        (((buffer ++ [DOUBLE_CODE]) ++ [0, 0, 0, 0, 0, 0, 0, 0]).length - 8) ++
      encode_sortable_float (beBytes 8 value)

end

/-- UTF-8 validity of a byte sequence; models the check performed by the Rust
    standard library in `String::from_utf8` (RFC 3629 ranges: surrogates and
    overlong/out-of-range encodings are rejected). -/
def isUtf8 : List Nat → Bool
  | [] => true
  | b :: rest =>
    if b ≤ 0x7F then isUtf8 rest
    else if 0xC2 ≤ b ∧ b ≤ 0xDF then
      match rest with
      | c1 :: r => decide (0x80 ≤ c1 ∧ c1 ≤ 0xBF) && isUtf8 r
      | [] => false
    else if b = 0xE0 then
      match rest with
      | c1 :: c2 :: r =>
        decide (0xA0 ≤ c1 ∧ c1 ≤ 0xBF) && decide (0x80 ≤ c2 ∧ c2 ≤ 0xBF) && isUtf8 r
      | _ => false
    else if (0xE1 ≤ b ∧ b ≤ 0xEC) ∨ b = 0xEE ∨ b = 0xEF then
      match rest with
      | c1 :: c2 :: r =>
        decide (0x80 ≤ c1 ∧ c1 ≤ 0xBF) && decide (0x80 ≤ c2 ∧ c2 ≤ 0xBF) && isUtf8 r
      | _ => false
    else if b = 0xED then
      match rest with
      | c1 :: c2 :: r =>
        decide (0x80 ≤ c1 ∧ c1 ≤ 0x9F) && decide (0x80 ≤ c2 ∧ c2 ≤ 0xBF) && isUtf8 r
      | _ => false
    else if b = 0xF0 then
      match rest with
      | c1 :: c2 :: c3 :: r =>
        decide (0x90 ≤ c1 ∧ c1 ≤ 0xBF) && decide (0x80 ≤ c2 ∧ c2 ≤ 0xBF) &&
          decide (0x80 ≤ c3 ∧ c3 ≤ 0xBF) && isUtf8 r
      | _ => false
    else if 0xF1 ≤ b ∧ b ≤ 0xF3 then
      match rest with
      | c1 :: c2 :: c3 :: r =>
        decide (0x80 ≤ c1 ∧ c1 ≤ 0xBF) && decide (0x80 ≤ c2 ∧ c2 ≤ 0xBF) &&
          decide (0x80 ≤ c3 ∧ c3 ≤ 0xBF) && isUtf8 r
      | _ => false
    else if b = 0xF4 then
      match rest with
      | c1 :: c2 :: c3 :: r =>
        decide (0x80 ≤ c1 ∧ c1 ≤ 0x8F) && decide (0x80 ≤ c2 ∧ c2 ≤ 0xBF) &&
          decide (0x80 ≤ c3 ∧ c3 ≤ 0xBF) && isUtf8 r
      | _ => false
    else false

/-- The byte `input[index]` read by the decoder's dispatch (always in bounds
    at the loop head, where `index < input.length`). -/
def tagAt (input : List Nat) (index : Nat) : Nat := input.getD index 0

/-- The `u64` read in the integer arms of `decode_segments`: a zeroed 8-byte
    buffer whose low `bytes` bytes are the payload, read big-endian. -/
def readIntPayload (bytes : Nat) (payload : List Nat) : Nat :=
  beNat (List.replicate (8 - bytes) 0 ++ payload)

/-- Value computed by the negative-integer arm of `decode_segments`:
    reinterpret the raw `u64` as `i64`; `i64::MAX` marks `i64::MIN`,
    otherwise subtract `SIZE_LIMITS[bytes] as i64`. -/
def decodeNegValue (bytes : Nat) (payload : List Nat) : Int :=
  if toI64 (readIntPayload bytes payload) = 2 ^ 63 - 1 then -(2 ^ 63)
  else toI64 (readIntPayload bytes payload) - toI64 (SIZE_LIMITS.getD bytes 0)

/-- Value computed by the positive-integer arm of `decode_segments`: the raw
    `u64` reinterpreted as `i64`. -/
def decodePosValue (bytes : Nat) (payload : List Nat) : Int :=
  toI64 (readIntPayload bytes payload)

/-- `Segment::decode_segments` from `src/segment.rs`, with the `while` loop
    written as recursion on a fuel counter (any fuel above
    `input.length - index` behaves identically; the top-level wrapper passes
    `input.length + 1`, which never runs out since every step advances
    `index` and the nested recursion drops at least one byte).  Each arm
    advances `index` by exactly the amount the Rust arm returns.  Accesses
    the Rust code performs without a bounds check become `DResult.panic`
    when out of bounds:
    * the `DOUBLE_CODE` arm only checks `index + 5 > input.len()` but reads
      up to `input[index + 7]` (and duplicates `input[index + 2]` while
      never reading `input[index + 8]`);
    * the `FLOAT_CODE` arm duplicates `input[index + 2]` and never reads
      `input[index + 4]`;
    * the `UUID_CODE` arm takes the slice `input[index + 1..index + 17]`
      with no length check (`Uuid::from_bytes` on a 16-byte slice cannot
      fail, so its error path is unreachable);
    * the `NESTED_CODE` arm reads `input[index + read + 1]` with no bounds
      check after the recursive call. -/
def decodeSegmentsAux : Nat → List Nat → Nat → List Segment → DResult (List Segment × Nat)
  | 0, _, _, _ => DResult.panic
  | fuel + 1, input, index, segments =>
    if index < input.length then
      if tagAt input index = BYTES_CODE then
        decodeSegmentsAux fuel input
          (index + ((decode_byte_string (input.drop (index + 1))).1 + 1))
          (segments ++ [Segment.Bytes (decode_byte_string (input.drop (index + 1))).2])
      else if tagAt input index = STRING_CODE then
        if isUtf8 (decode_byte_string (input.drop (index + 1))).2 then
          decodeSegmentsAux fuel input
            (index + ((decode_byte_string (input.drop (index + 1))).1 + 1))
            (segments ++ [Segment.String (decode_byte_string (input.drop (index + 1))).2])
        else DResult.err TupleError.StringDecodeError
      else if INT_NEG_MIN_CODE ≤ tagAt input index ∧ tagAt input index ≤ INT_NEG_MAX_CODE then
        if index + (INT_ZERO_CODE - tagAt input index) + 1 > input.length then
          DResult.err (TupleError.IntegerDecodeError index)
        else
          decodeSegmentsAux fuel input
            (index + ((INT_ZERO_CODE - tagAt input index) + 1))
            (segments ++
              [Segment.Integer
                  (decodeNegValue (INT_ZERO_CODE - tagAt input index)
                    ((input.drop (index + 1)).take (INT_ZERO_CODE - tagAt input index)))])
      else if INT_POS_MIN_CODE ≤ tagAt input index ∧ tagAt input index ≤ INT_POS_MAX_CODE then
        if index + (tagAt input index - INT_ZERO_CODE) + 1 > input.length then
          DResult.err (TupleError.IntegerDecodeError index)
        else
          decodeSegmentsAux fuel input
            (index + ((tagAt input index - INT_ZERO_CODE) + 1))
            (segments ++
              [Segment.Integer
                  (decodePosValue (tagAt input index - INT_ZERO_CODE)
                    ((input.drop (index + 1)).take (tagAt input index - INT_ZERO_CODE)))])
      else if tagAt input index = INT_ZERO_CODE then
        decodeSegmentsAux fuel input (index + 1) (segments ++ [Segment.Integer 0])
      else if tagAt input index = FLOAT_CODE then
        if index + 5 > input.length then DResult.err (TupleError.DecimalDecodeError index)
        else
          decodeSegmentsAux fuel input (index + 5)
            (segments ++
              [Segment.Float
                  (beNat
                    (decode_sortable_float
                      [tagAt input (index + 1), tagAt input (index + 2),
                        tagAt input (index + 2), tagAt input (index + 3)]))])
      else if tagAt input index = DOUBLE_CODE then
        if index + 5 > input.length then DResult.err (TupleError.DecimalDecodeError index)
        else if index + 8 > input.length then DResult.panic
        else
          decodeSegmentsAux fuel input (index + 9)
            (segments ++
              [Segment.Double
                  (beNat
                    (decode_sortable_float
                      [tagAt input (index + 1), tagAt input (index + 2),
                        tagAt input (index + 2), tagAt input (index + 3),
                        tagAt input (index + 4), tagAt input (index + 5),
                        tagAt input (index + 6), tagAt input (index + 7)]))])
      else if tagAt input index = TRUE_CODE then
        decodeSegmentsAux fuel input (index + 1) (segments ++ [Segment.Boolean true])
      else if tagAt input index = FALSE_CODE then
        decodeSegmentsAux fuel input (index + 1) (segments ++ [Segment.Boolean false])
      else if tagAt input index = UUID_CODE then
        if index + 17 > input.length then DResult.panic
        else
          decodeSegmentsAux fuel input (index + 17)
            (segments ++ [Segment.UUID ((input.drop (index + 1)).take 16)])
      else if tagAt input index = NESTED_CODE then
        match decodeSegmentsAux fuel (input.drop (index + 1)) 0 [] with
        | DResult.ok (result, read) =>
          if index + read + 1 < input.length then
            if tagAt input (index + read + 1) ≠ NULL then
              DResult.err TupleError.TruncatedNestedTuple
            else
              decodeSegmentsAux fuel input (index + (read + 2))
                (segments ++ [Segment.Nested result])
          else DResult.panic
        | DResult.err e => DResult.err e
        | DResult.panic => DResult.panic
      else if tagAt input index = NULL then
        DResult.ok (segments, index)
      else DResult.err (TupleError.DecodeError index (tagAt input index))
    else DResult.ok (segments, index)

/-- `Segment::decode_segments` entry point: fuel `input.length + 1` never
    runs out (see `decodeSegmentsAux`). -/
def decodeSegments (input : List Nat) : DResult (List Segment × Nat) :=
  decodeSegmentsAux (input.length + 1) input 0 []

/-- `Segment::decode` from `src/segment.rs`: run the recursive routine and
    fail with `TruncatedTuple` unless it consumed the whole input. -/
def Segment.decode (input : List Nat) : DResult (List Segment) :=
  match decodeSegments input with
  | DResult.ok (segments, read) =>
    if read ≠ input.length then DResult.err TupleError.TruncatedTuple
    else DResult.ok segments
  | DResult.err e => DResult.err e
  | DResult.panic => DResult.panic

/-! Helper lemmas about the sign bit (`0x80`) arithmetic used by the
    sortable-float transform. -/

theorem and128_eq (b : Nat) : b &&& 128 = (b.testBit 7).toNat * 128 := by
  have h := Nat.and_two_pow b 7
  norm_num at h
  exact h

theorem and128_dichotomy (b : Nat) : b &&& 128 = 128 ∨ b &&& 128 = 0 := by
  rw [and128_eq]
  cases b.testBit 7 <;> simp

theorem testBit7_of_and128 (b : Nat) (h : b &&& 128 = 128) : b.testBit 7 = true := by
  rw [and128_eq] at h
  cases hb : b.testBit 7
  · rw [hb] at h; simp at h
  · rfl

theorem testBit7_of_and128_zero (b : Nat) (h : b &&& 128 = 0) : b.testBit 7 = false := by
  rw [and128_eq] at h
  cases hb : b.testBit 7
  · rfl
  · rw [hb] at h; simp at h

theorem testBit7_xor255 (b : Nat) : (b ^^^ 255).testBit 7 = !b.testBit 7 := by
  rw [Nat.testBit_xor, show (255 : Nat).testBit 7 = true from by decide]
  cases b.testBit 7 <;> rfl

theorem testBit7_xor128 (b : Nat) : (b ^^^ 128).testBit 7 = !b.testBit 7 := by
  rw [Nat.testBit_xor, show (128 : Nat).testBit 7 = true from by decide]
  cases b.testBit 7 <;> rfl

theorem and128_xor255 (b : Nat) (h : b &&& 128 = 128) : (b ^^^ 255) &&& 128 = 0 := by
  rw [and128_eq, testBit7_xor255, testBit7_of_and128 b h]
  rfl

theorem and128_xor128 (b : Nat) (h : b &&& 128 = 0) : (b ^^^ 128) &&& 128 = 128 := by
  rw [and128_eq, testBit7_xor128, testBit7_of_and128_zero b h]
  rfl

/-- Claim C4: the order-preserving float transform is its own exact inverse
    pair at the byte level: for every byte array of length 4 or 8,
    `decode_sortable_float (encode_sortable_float b) = b`. -/
theorem C4_sortable_float_involutive (b : List Nat) (h : b.length = 4 ∨ b.length = 8) :
    decode_sortable_float (encode_sortable_float b) = b := by
  rcases b with _ | ⟨b0, rest⟩
  · rcases h with h | h <;> simp at h
  · simp only [encode_sortable_float]
    rcases and128_dichotomy b0 with h128 | h128
    · rw [if_pos (by rw [h128]; decide), List.map_cons]
      simp only [decode_sortable_float]
      rw [if_pos (by rw [and128_xor255 b0 h128]; decide)]
      simp [List.map_map, Function.comp_def, Nat.xor_cancel_right]
    · rw [if_neg (by rw [h128]; decide)]
      simp only [decode_sortable_float]
      rw [if_neg (by rw [and128_xor128 b0 h128]; decide), Nat.xor_cancel_right]

/-- Witness for C4 at the transformed bytes of `1.0f32`. -/
theorem C4_sortable_float_involutive_witness :
    ([63, 128, 0, 0] : List Nat).length = 4 ∧
      decode_sortable_float (encode_sortable_float [63, 128, 0, 0]) = [63, 128, 0, 0] :=
  ⟨by decide, C4_sortable_float_involutive [63, 128, 0, 0] (Or.inl (by decide))⟩

/-! Encoding is append-only: the helper lemmas below show every `encode`
    call only appends to its buffer. -/

mutual

theorem encode_slice_append (l : List Segment) (B : List Nat) :
    encode_slice l B = B ++ encode_slice l [] := by
  match l with
  | [] => simp [encode_slice]
  | s :: rest =>
    rw [encode_slice, encode_slice, encode_slice_append rest (Segment.encode s B),
      Segment.encode_append s B, encode_slice_append rest (Segment.encode s []),
      List.append_assoc]

theorem Segment.encode_append (s : Segment) (B : List Nat) :
    Segment.encode s B = B ++ Segment.encode s [] := by
  match s with
  | Segment.Bytes data => simp [Segment.encode, encode_byte_string]
  | Segment.String data => simp [Segment.encode, encode_byte_string]
  | Segment.Const data => simp [Segment.encode, encode_byte_string]
  | Segment.Nested inner =>
    rw [Segment.encode, Segment.encode, encode_slice_append inner (B ++ [NESTED_CODE]),
      encode_slice_append inner ([] ++ [NESTED_CODE])]
    simp
  | Segment.Integer v =>
    simp only [Segment.encode]
    split_ifs <;> simp
  | Segment.Tuple value => simp [Segment.encode]
  | Segment.Boolean value => cases value <;> simp [Segment.encode]
  | Segment.UUID value => simp [Segment.encode]
  | Segment.Float value =>
    rw [Segment.encode, Segment.encode,
      @List.take_left' Nat (B ++ [FLOAT_CODE]) [0, 0, 0, 0] _ (by simp),
      @List.take_left' Nat ([] ++ [FLOAT_CODE]) [0, 0, 0, 0] _ (by simp)]
    simp
  | Segment.Double value =>
    rw [Segment.encode, Segment.encode,
      @List.take_left' Nat (B ++ [DOUBLE_CODE]) [0, 0, 0, 0, 0, 0, 0, 0] _ (by simp),
      @List.take_left' Nat ([] ++ [DOUBLE_CODE]) [0, 0, 0, 0, 0, 0, 0, 0] _ (by simp)]
    simp

end

/-- Claim C10: `Segment::encode` only appends to its output buffer: the
    first `|B|` bytes of the result still equal `B`, and the appended suffix
    equals `Segment.encode v []`, which depends only on the segment. -/
theorem C10_encode_append_only (v : Segment) (B : List Nat) :
    (Segment.encode v B).take B.length = B ∧
      (Segment.encode v B).drop B.length = Segment.encode v [] := by
  rw [Segment.encode_append v B]
  exact ⟨List.take_left B _, List.drop_left B _⟩

/-- On input that contains no `0x00` byte at all, the escape decoder's window
    loop falls through and executes `return (read + 1, bytes)`: it consumes
    the whole input (one byte when the input is empty) and the final byte is
    never pushed to the payload. -/
theorem decode_byte_string_aux_no_null (l : List Nat) (h : ∀ b ∈ l, b ≠ 0) :
    decode_byte_string_aux l false = (max l.length 1, l.dropLast) := by
  match l with
  | [] => rfl
  | [a] => rfl
  | a :: b :: rest =>
    have ha : a ≠ 0 := h a (by simp)
    have hrec := decode_byte_string_aux_no_null (b :: rest) (fun x hx => h x (by simp [hx]))
    rw [decode_byte_string_aux, if_neg (by simp), if_neg (by simpa [NULL] using ha), hrec]
    have h1 : max (b :: rest).length 1 = rest.length + 1 := by simp
    have h2 : max (a :: b :: rest).length 1 = rest.length + 2 := by simp
    simp [h1, h2, List.dropLast_cons₂]

/-- Claim C6, corrected: the escape decoder cannot fail.  When the input
    holds no `0x00` byte it consumes everything (reporting `max length 1`
    bytes read) and silently treats the final byte as the terminator, so an
    unterminated bytes segment decodes successfully with its payload
    shortened by one byte. -/
theorem C6_decode_byte_string_total (input : List Nat) (h : ∀ b ∈ input, b ≠ 0) :
    decode_byte_string input = (max input.length 1, input.dropLast) ∧
      (input ≠ [] →
        Segment.decode (BYTES_CODE :: input) = DResult.ok [Segment.Bytes input.dropLast]) := by
  have hdbs : decode_byte_string input = (max input.length 1, input.dropLast) :=
    decode_byte_string_aux_no_null input h
  refine ⟨hdbs, fun hne => ?_⟩
  have hlen : 1 ≤ input.length := List.length_pos.mpr hne
  have hmax : max input.length 1 = input.length := by omega
  rw [hmax] at hdbs
  simp only [Segment.decode, decodeSegments, List.length_cons]
  rw [decodeSegmentsAux, if_pos (by simp), if_pos (by simp [tagAt, BYTES_CODE])]
  simp only [List.drop_succ_cons, List.drop_zero, hdbs]
  rw [decodeSegmentsAux]
  simp

/-- Counterexample for C6 as stated: decoding a bytes segment whose payload
    `[0x41, 0x42]` is not `0x00`-terminated succeeds (it does not fail) and
    silently drops the final byte from the payload. -/
theorem C6_unterminated_bytes_not_an_error :
    Segment.decode [1, 65, 66] = DResult.ok [Segment.Bytes [65]] := rfl

/-- Witness for the corrected C6 at payload `[0x41, 0x42]`. -/
theorem C6_decode_byte_string_total_witness :
    decode_byte_string [65, 66] = (2, [65]) ∧
      Segment.decode [1, 65, 66] = DResult.ok [Segment.Bytes [65]] := by
  have h := C6_decode_byte_string_total [65, 66] (by decide)
  exact ⟨h.1, h.2 (by decide)⟩

mutual

/-- A segment that the decoder can produce: every variant except the
    encode-only `Const` and `Tuple` (`RawPrefix`), recursively. -/
def goodSegment : Segment → Bool
  | Segment.Bytes _ => true
  | Segment.String _ => true
  | Segment.Const _ => false
  | Segment.Nested inner => goodSegments inner
  | Segment.Integer _ => true
  | Segment.Float _ => true
  | Segment.Double _ => true
  | Segment.Boolean _ => true
  | Segment.UUID _ => true
  | Segment.Tuple _ => false

/-- `goodSegment` lifted to a list of segments. -/
def goodSegments : List Segment → Bool
  | [] => true
  | s :: rest => goodSegment s && goodSegments rest

end

theorem goodSegments_append (l1 l2 : List Segment) :
    goodSegments (l1 ++ l2) = (goodSegments l1 && goodSegments l2) := by
  induction l1 with
  | nil => simp [goodSegments]
  | cons s rest ih => simp [goodSegments, ih, Bool.and_assoc]

/-- One unfolded step of the decoder loop, when it returns `ok`: either it
    returned directly (slice exhausted, or an unescaped `0x00` in tag
    position), or it consumed one segment of a decodable shape and continued
    with one more fuel unit spent. -/
theorem decodeSegmentsAux_succ_ok (fuel : Nat) (input : List Nat) (index : Nat)
    (segs0 segs : List Segment) (read : Nat)
    (h : decodeSegmentsAux (fuel + 1) input index segs0 = DResult.ok (segs, read)) :
    (segs = segs0 ∧ read = index ∧ (index < input.length → tagAt input index = NULL)) ∨
    (∃ j s1, decodeSegmentsAux fuel input j (segs0 ++ [s1]) = DResult.ok (segs, read) ∧
      ((∃ bs, s1 = Segment.Bytes bs) ∨ (∃ bs, s1 = Segment.String bs) ∨
       (∃ i, s1 = Segment.Integer i) ∨ (∃ f, s1 = Segment.Float f) ∨
       (∃ d, s1 = Segment.Double d) ∨ (∃ b, s1 = Segment.Boolean b) ∨
       (∃ u, s1 = Segment.UUID u) ∨
       (∃ result r2, s1 = Segment.Nested result ∧
         decodeSegmentsAux fuel (input.drop (index + 1)) 0 [] = DResult.ok (result, r2)))) := by
  rw [decodeSegmentsAux] at h
  by_cases hidx : index < input.length
  case neg =>
    rw [if_neg hidx] at h
    simp only [DResult.ok.injEq, Prod.mk.injEq] at h
    exact Or.inl ⟨h.1.symm, h.2.symm, fun hc => absurd hc hidx⟩
  case pos =>
  rw [if_pos hidx] at h
  by_cases h1 : tagAt input index = BYTES_CODE
  · rw [if_pos h1] at h
    exact Or.inr ⟨_, _, h, Or.inl ⟨_, rfl⟩⟩
  rw [if_neg h1] at h
  by_cases h2 : tagAt input index = STRING_CODE
  · rw [if_pos h2] at h
    by_cases h2a : isUtf8 (decode_byte_string (input.drop (index + 1))).2 = true
    · rw [if_pos h2a] at h
      exact Or.inr ⟨_, _, h, Or.inr (Or.inl ⟨_, rfl⟩)⟩
    · rw [if_neg h2a] at h
      exact DResult.noConfusion h
  rw [if_neg h2] at h
  by_cases h3 : INT_NEG_MIN_CODE ≤ tagAt input index ∧ tagAt input index ≤ INT_NEG_MAX_CODE
  · rw [if_pos h3] at h
    by_cases h3a : index + (INT_ZERO_CODE - tagAt input index) + 1 > input.length
    · rw [if_pos h3a] at h
      exact DResult.noConfusion h
    · rw [if_neg h3a] at h
      exact Or.inr ⟨_, _, h, Or.inr (Or.inr (Or.inl ⟨_, rfl⟩))⟩
  rw [if_neg h3] at h
  by_cases h4 : INT_POS_MIN_CODE ≤ tagAt input index ∧ tagAt input index ≤ INT_POS_MAX_CODE
  · rw [if_pos h4] at h
    by_cases h4a : index + (tagAt input index - INT_ZERO_CODE) + 1 > input.length
    · rw [if_pos h4a] at h
      exact DResult.noConfusion h
    · rw [if_neg h4a] at h
      exact Or.inr ⟨_, _, h, Or.inr (Or.inr (Or.inl ⟨_, rfl⟩))⟩
  rw [if_neg h4] at h
  by_cases h5 : tagAt input index = INT_ZERO_CODE
  · rw [if_pos h5] at h
    exact Or.inr ⟨_, _, h, Or.inr (Or.inr (Or.inl ⟨_, rfl⟩))⟩
  rw [if_neg h5] at h
  by_cases h6 : tagAt input index = FLOAT_CODE
  · rw [if_pos h6] at h
    by_cases h6a : index + 5 > input.length
    · rw [if_pos h6a] at h
      exact DResult.noConfusion h
    · rw [if_neg h6a] at h
      exact Or.inr ⟨_, _, h, Or.inr (Or.inr (Or.inr (Or.inl ⟨_, rfl⟩)))⟩
  rw [if_neg h6] at h
  by_cases h7 : tagAt input index = DOUBLE_CODE
  · rw [if_pos h7] at h
    by_cases h7a : index + 5 > input.length
    · rw [if_pos h7a] at h
      exact DResult.noConfusion h
    · rw [if_neg h7a] at h
      by_cases h7b : index + 8 > input.length
      · rw [if_pos h7b] at h
        exact DResult.noConfusion h
      · rw [if_neg h7b] at h
        exact Or.inr ⟨_, _, h, Or.inr (Or.inr (Or.inr (Or.inr (Or.inl ⟨_, rfl⟩))))⟩
  rw [if_neg h7] at h
  by_cases h8 : tagAt input index = TRUE_CODE
  · rw [if_pos h8] at h
    exact Or.inr ⟨_, _, h, Or.inr (Or.inr (Or.inr (Or.inr (Or.inr (Or.inl ⟨_, rfl⟩)))))⟩
  rw [if_neg h8] at h
  by_cases h9 : tagAt input index = FALSE_CODE
  · rw [if_pos h9] at h
    exact Or.inr ⟨_, _, h, Or.inr (Or.inr (Or.inr (Or.inr (Or.inr (Or.inl ⟨_, rfl⟩)))))⟩
  rw [if_neg h9] at h
  by_cases h10 : tagAt input index = UUID_CODE
  · rw [if_pos h10] at h
    by_cases h10a : index + 17 > input.length
    · rw [if_pos h10a] at h
      exact DResult.noConfusion h
    · rw [if_neg h10a] at h
      exact Or.inr
        ⟨_, _, h, Or.inr (Or.inr (Or.inr (Or.inr (Or.inr (Or.inr (Or.inl ⟨_, rfl⟩))))))⟩
  rw [if_neg h10] at h
  by_cases h11 : tagAt input index = NESTED_CODE
  · rw [if_pos h11] at h
    split at h
    · rename_i result r2 heq
      by_cases h11a : index + r2 + 1 < input.length
      · rw [if_pos h11a] at h
        by_cases h11b : tagAt input (index + r2 + 1) ≠ NULL
        · rw [if_pos h11b] at h
          exact DResult.noConfusion h
        · rw [if_neg h11b] at h
          exact Or.inr
            ⟨_, _, h,
              Or.inr (Or.inr (Or.inr (Or.inr (Or.inr (Or.inr (Or.inr ⟨result, r2, rfl, heq⟩))))))⟩
      · rw [if_neg h11a] at h
        exact DResult.noConfusion h
    · exact DResult.noConfusion h
    · exact DResult.noConfusion h
  rw [if_neg h11] at h
  by_cases h12 : tagAt input index = NULL
  · rw [if_pos h12] at h
    simp only [DResult.ok.injEq, Prod.mk.injEq] at h
    exact Or.inl ⟨h.1.symm, h.2.symm, fun _ => h12⟩
  · rw [if_neg h12] at h
    exact DResult.noConfusion h

/-- Fuel induction: whenever the recursive decoder returns `ok` starting
    from an accumulator of decodable segments, every returned segment is
    decodable (no `Const`, no `Tuple`, recursively). -/
theorem decodeSegmentsAux_good (fuel : Nat) :
    ∀ (input : List Nat) (index : Nat) (segs0 segs : List Segment) (read : Nat),
      goodSegments segs0 = true →
      decodeSegmentsAux fuel input index segs0 = DResult.ok (segs, read) →
      goodSegments segs = true := by
  induction fuel with
  | zero =>
    intro input index segs0 segs read hg h
    rw [decodeSegmentsAux] at h
    exact DResult.noConfusion h
  | succ fuel ih =>
    intro input index segs0 segs read hg h
    rcases decodeSegmentsAux_succ_ok fuel input index segs0 segs read h with
      ⟨rfl, _, _⟩ | ⟨j, s1, hcont, hs1⟩
    · exact hg
    · refine ih _ _ _ _ _ ?_ hcont
      rw [goodSegments_append, hg]
      rcases hs1 with ⟨bs, rfl⟩ | ⟨bs, rfl⟩ | ⟨i, rfl⟩ | ⟨f, rfl⟩ | ⟨d, rfl⟩ | ⟨b, rfl⟩ |
        ⟨u, rfl⟩ | ⟨result, r2, rfl, hin⟩
      · simp [goodSegments, goodSegment]
      · simp [goodSegments, goodSegment]
      · simp [goodSegments, goodSegment]
      · simp [goodSegments, goodSegment]
      · simp [goodSegments, goodSegment]
      · simp [goodSegments, goodSegment]
      · simp [goodSegments, goodSegment]
      · have hres : goodSegments result = true :=
          ih _ _ _ _ _ (by simp [goodSegments]) hin
        simp [goodSegments, goodSegment, hres]

/-- Fuel induction: if the recursive decoder returns `ok` having consumed
    less than the whole input, it stopped at the `NULL` arm, so the byte at
    the reported position is an unescaped `0x00` in tag position. -/
theorem decodeSegmentsAux_stop_null (fuel : Nat) :
    ∀ (input : List Nat) (index : Nat) (segs0 segs : List Segment) (read : Nat),
      decodeSegmentsAux fuel input index segs0 = DResult.ok (segs, read) →
      read < input.length → input.getD read 0 = 0 := by
  induction fuel with
  | zero =>
    intro input index segs0 segs read h hr
    rw [decodeSegmentsAux] at h
    exact DResult.noConfusion h
  | succ fuel ih =>
    intro input index segs0 segs read h hr
    rcases decodeSegmentsAux_succ_ok fuel input index segs0 segs read h with
      ⟨_, rfl, himp⟩ | ⟨j, s1, hcont, _⟩
    · simpa [tagAt, NULL] using himp hr
    · exact ih _ _ _ _ _ hcont hr

/-- Claim C1 (code evaluation at the failing input): the float round-trip
    fails.  Encoding the `f32` value `1.0` (bit pattern `0x3F800000`) gives
    `[0x20, 0xBF, 0x80, 0x00, 0x00]`, but decode rebuilds the payload from
    indices 1,2,2,3 — duplicating the second byte and ignoring the fourth —
    so decoding returns bit pattern `0x3F808000` (the `f32` `1.00390625`).
    The same indexing slip corrupts doubles: `1.0f64` (`0x3FF0000000000000`)
    decodes to `0x3FF0F00000000000` (`1.05859375`). -/
theorem C1_float_roundtrip_fails :
    Segment.decode (Segment.encode (Segment.Float 0x3F800000) []) =
        DResult.ok [Segment.Float 0x3F808000] ∧
      (0x3F808000 : Nat) ≠ 0x3F800000 ∧
      Segment.decode (Segment.encode (Segment.Double 0x3FF0000000000000) []) =
        DResult.ok [Segment.Double 0x3FF0F00000000000] ∧
      (0x3FF0F00000000000 : Nat) ≠ 0x3FF0000000000000 :=
  ⟨rfl, by decide, rfl, by decide⟩

/-- Claim C3 (code evaluation at the failing inputs): decode is not total —
    it hits out-of-bounds accesses (Rust panics) on a nested-open tag with
    no terminator, a UUID tag with fewer than 16 payload bytes, and a double
    tag with 4..6 payload bytes. -/
theorem C3_decode_panics_on_malformed_input :
    Segment.decode [5] = DResult.panic ∧ Segment.decode [48] = DResult.panic ∧
      Segment.decode [33, 1, 1, 1, 1] = DResult.panic :=
  ⟨rfl, rfl, rfl⟩

/-- Claim C5 (code evaluation at the failing input): when a nested region's
    recursive decode runs off the end of the input instead of stopping at an
    unescaped `0x00`, the terminator check `input[index + read + 1]` reads
    past the end — a Rust panic — rather than returning
    `TruncatedNestedTuple`. -/
theorem C5_missing_nested_terminator_panics :
    Segment.decode [5, 38] = DResult.panic ∧
      ¬Segment.decode [5, 38] = DResult.err TupleError.TruncatedNestedTuple :=
  ⟨rfl, fun hq => DResult.noConfusion hq⟩

/-- Claim C7 (code evaluation): a float tag with fewer than 4 payload bytes
    does produce `DecimalDecodeError` at the tag position, but a double tag
    with 4 payload bytes panics (the guard checks `index + 5 > len`, copied
    from the float arm, yet the arm reads up to `input[index + 7]`), and a
    UUID tag with fewer than 16 payload bytes panics (unchecked slice)
    instead of producing `UuidDecodeError`. -/
theorem C7_fixed_width_truncation :
    Segment.decode [32, 0, 0] = DResult.err (TupleError.DecimalDecodeError 0) ∧
      Segment.decode [33, 0, 0, 0, 0] = DResult.panic ∧
      Segment.decode [48, 171] = DResult.panic :=
  ⟨rfl, rfl, rfl⟩

/-- Claim C8: top-level decode succeeds only when the recursive routine
    consumed exactly the whole input; and whenever the recursive routine
    stops early — which happens exactly at an unescaped `0x00` in tag
    position outside any nested region — top-level decode returns
    `TruncatedTuple` instead of the segments decoded before that byte. -/
theorem C8_toplevel_requires_full_consumption (input : List Nat) (segs : List Segment)
    (read : Nat) :
    (Segment.decode input = DResult.ok segs →
      decodeSegments input = DResult.ok (segs, input.length)) ∧
    (decodeSegments input = DResult.ok (segs, read) → read < input.length →
      input.getD read 0 = 0 ∧ Segment.decode input = DResult.err TupleError.TruncatedTuple) := by
  constructor
  · intro h
    unfold Segment.decode at h
    split at h
    · rename_i s2 r2 heq
      by_cases hr2 : r2 ≠ input.length
      · rw [if_pos hr2] at h
        exact DResult.noConfusion h
      · rw [if_neg hr2] at h
        simp only [DResult.ok.injEq] at h
        simp only [ne_eq, not_not] at hr2
        rw [heq, h, hr2]
    · exact DResult.noConfusion h
    · exact DResult.noConfusion h
  · intro hds hr
    have hds' := hds
    unfold decodeSegments at hds'
    refine ⟨decodeSegmentsAux_stop_null _ _ _ _ _ _ hds' hr, ?_⟩
    have hstep : Segment.decode input =
        if read ≠ input.length then DResult.err TupleError.TruncatedTuple
        else DResult.ok segs := by
      unfold Segment.decode
      rw [hds]
    rw [hstep, if_pos (by omega)]

/-- Witness for C8: `[0x26, 0x00, 0x27]` has a stray `0x00` in tag position
    after the first boolean; decode reports `TruncatedTuple`. -/
theorem C8_toplevel_requires_full_consumption_witness :
    ([38, 0, 39] : List Nat).getD 1 0 = 0 ∧
      Segment.decode [38, 0, 39] = DResult.err TupleError.TruncatedTuple :=
  (C8_toplevel_requires_full_consumption [38, 0, 39] [Segment.Boolean false] 1).2 rfl
    (by decide)

/-- Claim C9: every decode success returns only decodable segment shapes:
    `Bytes`, `String`, `Nested` (recursively so), `Integer`, `Float`,
    `Double`, `Boolean`, `UUID` — never `Const` or `Tuple`. -/
theorem C9_decode_yields_closed_set (input : List Nat) (segs : List Segment)
    (h : Segment.decode input = DResult.ok segs) : goodSegments segs = true := by
  unfold Segment.decode at h
  split at h
  · rename_i s2 r2 heq
    by_cases hr : r2 ≠ input.length
    · rw [if_pos hr] at h
      exact DResult.noConfusion h
    · rw [if_neg hr] at h
      simp only [DResult.ok.injEq] at h
      unfold decodeSegments at heq
      subst h
      exact decodeSegmentsAux_good _ _ _ _ _ _ (by simp [goodSegments]) heq
  · exact DResult.noConfusion h
  · exact DResult.noConfusion h

/-- Witness for C9 at the one-byte input `[0x27]`. -/
theorem C9_decode_yields_closed_set_witness :
    Segment.decode [39] = DResult.ok [Segment.Boolean true] ∧
      goodSegments [Segment.Boolean true] = true :=
  ⟨rfl, C9_decode_yields_closed_set [39] [Segment.Boolean true] rfl⟩

/-- Strict byte-lexicographic order on byte sequences: the order `Ord` gives
    Rust `Vec<u8>` values (a strict prefix sorts before its extensions). -/
def lexLt : List Nat → List Nat → Bool
  | _, [] => false
  | [], _ :: _ => true
  | a :: as, b :: bs => if a < b then true else if a = b then lexLt as bs else false

theorem lexLt_cons_iff (a b : Nat) (as bs : List Nat) :
    lexLt (a :: as) (b :: bs) = true ↔ (a < b ∨ (a = b ∧ lexLt as bs = true)) := by
  simp only [lexLt]
  split_ifs with h1 h2
  · simp [h1]
  · simp [h1, h2]
  · simp [h1, h2]

/-- Minimal big-endian byte length of a positive magnitude: the `n` with
    `256^(n-1) ≤ m < 256^n`. -/
def blen (m : Nat) : Nat := Nat.log 256 m + 1

theorem blen_pos (m : Nat) : 1 ≤ blen m := by
  unfold blen
  omega

theorem lt_pow_blen (m : Nat) : m < 256 ^ blen m := by
  unfold blen
  exact Nat.lt_pow_succ_log_self (by norm_num) m

theorem pow_blen_pred_le (m : Nat) (hm : m ≠ 0) : 256 ^ (blen m - 1) ≤ m := by
  unfold blen
  simpa using Nat.pow_log_le_self 256 hm

theorem blen_le_8 (m : Nat) (hm : m < 2 ^ 64) : blen m ≤ 8 := by
  unfold blen
  rcases Nat.eq_zero_or_pos m with h0 | h0
  · subst h0
    simp
  · have h28 : (256 : Nat) ^ 8 = 2 ^ 64 := by norm_num
    have : Nat.log 256 m < 8 :=
      (Nat.lt_pow_iff_log_lt (by norm_num) (by omega)).mp (by rw [h28]; exact hm)
    omega

theorem blen_lt_imp_lt (x y : Nat) (hy : y ≠ 0) (h : blen x < blen y) : x < y := by
  calc x < 256 ^ blen x := lt_pow_blen x
  _ ≤ 256 ^ (blen y - 1) := Nat.pow_le_pow_right (by norm_num) (by omega)
  _ ≤ y := pow_blen_pred_le y hy

theorem blen_two_pow_63 : blen (2 ^ 63) = 8 := by
  rw [blen, show Nat.log 256 (2 ^ 63) = 7 from
    Nat.log_eq_of_pow_le_of_lt_pow (by norm_num) (by norm_num)]

theorem beBytes_zero (n : Nat) : beBytes n 0 = List.replicate n 0 := by
  induction n with
  | zero => rfl
  | succ n ih => simp [beBytes, ih, List.replicate_succ]

theorem beBytes_split (m : Nat) :
    ∀ n v : Nat, v < 256 ^ (m + n) →
      beBytes (m + n) v = beBytes m (v / 256 ^ n) ++ beBytes n (v % 256 ^ n) := by
  induction m with
  | zero =>
    intro n v hv
    rw [Nat.zero_add] at hv
    simp [beBytes, Nat.mod_eq_of_lt hv]
  | succ m ih =>
    intro n v hv
    have hmn : m + 1 + n = (m + n) + 1 := by omega
    rw [hmn, beBytes, beBytes]
    have hhead : v / 256 ^ (m + n) = v / 256 ^ n / 256 ^ m := by
      rw [Nat.div_div_eq_div_mul, ← pow_add, Nat.add_comm n m]
    have hmod : v % 256 ^ (m + n) < 256 ^ (m + n) := Nat.mod_lt _ (by positivity)
    rw [ih n (v % 256 ^ (m + n)) hmod]
    have h1 : v % 256 ^ (m + n) / 256 ^ n = v / 256 ^ n % 256 ^ m := by
      rw [show (256 : Nat) ^ (m + n) = 256 ^ n * 256 ^ m from by
          rw [← pow_add, Nat.add_comm n m],
        Nat.mod_mul_right_div_self]
    have h2 : v % 256 ^ (m + n) % 256 ^ n = v % 256 ^ n :=
      Nat.mod_mod_of_dvd v (pow_dvd_pow 256 (by omega))
    rw [h1, h2, hhead]
    simp

theorem beBytes_high_zeros (n v : Nat) (hn : n ≤ 8) (hv : v < 256 ^ n) :
    beBytes 8 v = List.replicate (8 - n) 0 ++ beBytes n v := by
  have h8 : (8 : Nat) = (8 - n) + n := by omega
  have hv8 : v < 256 ^ ((8 - n) + n) := by
    calc v < 256 ^ n := hv
    _ ≤ 256 ^ ((8 - n) + n) := Nat.pow_le_pow_right (by norm_num) (by omega)
  calc beBytes 8 v = beBytes ((8 - n) + n) v := by rw [← h8]
  _ = beBytes (8 - n) (v / 256 ^ n) ++ beBytes n (v % 256 ^ n) := beBytes_split (8 - n) n v hv8
  _ = List.replicate (8 - n) 0 ++ beBytes n v := by
      rw [Nat.div_eq_of_lt hv, Nat.mod_eq_of_lt hv, beBytes_zero]

theorem takeWhile_zeros_length (k : Nat) (h : Nat) (t : List Nat) (hh : h ≠ 0) :
    ((List.replicate k 0 ++ h :: t).takeWhile (fun x => x == 0)).length = k := by
  induction k with
  | zero => simp [List.takeWhile_cons, hh]
  | succ k ih => simp [List.replicate_succ, List.takeWhile_cons, ih, hh]

theorem size_limits_getD (n : Nat) (h1 : 1 ≤ n) (h2 : n ≤ 8) :
    SIZE_LIMITS.getD n 0 = 256 ^ n - 1 := by
  interval_cases n <;> decide

theorem div_mod_lt_iff (P v w : Nat) (hP : 0 < P) :
    v < w ↔ (v / P < w / P ∨ (v / P = w / P ∧ v % P < w % P)) := by
  constructor
  · intro hvw
    rcases Nat.lt_trichotomy (v / P) (w / P) with hd | hd | hd
    · exact Or.inl hd
    · refine Or.inr ⟨hd, ?_⟩
      have e1 := Nat.div_add_mod v P
      have e2 := Nat.div_add_mod w P
      rw [hd] at e1
      generalize hq : P * (w / P) = q at e1 e2
      omega
    · exact absurd (Nat.lt_of_div_lt_div hd) (by omega)
  · intro hor
    rcases hor with hd | ⟨hd, hm⟩
    · exact Nat.lt_of_div_lt_div hd
    · have e1 := Nat.div_add_mod v P
      have e2 := Nat.div_add_mod w P
      rw [hd] at e1
      generalize hq : P * (w / P) = q at e1 e2
      omega

/-- On equal-width big-endian byte strings, lexicographic order is numeric
    order. -/
theorem beBytes_lexLt (n : Nat) :
    ∀ v w : Nat, v < 256 ^ n → w < 256 ^ n →
      (lexLt (beBytes n v) (beBytes n w) = true ↔ v < w) := by
  induction n with
  | zero =>
    intro v w hv hw
    have hv0 : v = 0 := by simpa using hv
    have hw0 : w = 0 := by simpa using hw
    subst hv0
    subst hw0
    simp [beBytes, lexLt]
  | succ n ih =>
    intro v w hv hw
    rw [beBytes, beBytes, lexLt_cons_iff]
    have hP : (0 : Nat) < 256 ^ n := by positivity
    rw [ih (v % 256 ^ n) (w % 256 ^ n) (Nat.mod_lt _ hP) (Nat.mod_lt _ hP)]
    exact (div_mod_lt_iff (256 ^ n) v w hP).symm

theorem beBytes8_takeWhile (m : Nat) (h1 : m ≠ 0) (h8 : blen m ≤ 8) :
    ((beBytes 8 m).takeWhile (fun x => x == 0)).length = 8 - blen m := by
  rw [beBytes_high_zeros (blen m) m h8 (lt_pow_blen m)]
  obtain ⟨k, hk⟩ : ∃ k, blen m = k + 1 := ⟨blen m - 1, by have := blen_pos m; omega⟩
  rw [hk, beBytes]
  apply takeWhile_zeros_length
  have hle : 256 ^ k ≤ m := by
    have := pow_blen_pred_le m h1
    rw [hk] at this
    simpa using this
  have : 0 < m / 256 ^ k := Nat.div_pos hle (by positivity)
  omega

theorem beBytes8_drop (n u : Nat) (hn : n ≤ 8) (hu : u < 256 ^ n) :
    (beBytes 8 u).drop (8 - n) = beBytes n u := by
  rw [beBytes_high_zeros n u hn hu]
  exact @List.drop_left' Nat (List.replicate (8 - n) 0) (beBytes n u) _ (by simp)

/-- `Segment::encode` on `Integer(0)` writes the single center tag byte. -/
theorem encode_int_zero : Segment.encode (Segment.Integer 0) [] = [INT_ZERO_CODE] := rfl

/-- Canonical form of the positive-integer encoding: tag `0x14 + n` followed
    by the minimal `n`-byte big-endian magnitude. -/
theorem encode_int_pos (v : Int) (h0 : 0 < v) (hv : v < 2 ^ 63) :
    Segment.encode (Segment.Integer v) [] =
      (INT_ZERO_CODE + blen v.toNat) :: beBytes (blen v.toNat) v.toNat := by
  have hne : v ≠ 0 := by omega
  have hnmin : v ≠ -(2 ^ 63) := by omega
  simp only [Segment.encode]
  rw [if_neg hne, if_neg hnmin, if_pos h0]
  have hm0 : v.toNat ≠ 0 := by omega
  have h8 : blen v.toNat ≤ 8 := blen_le_8 _ (by omega)
  rw [beBytes8_takeWhile v.toNat hm0 h8,
    beBytes8_drop (blen v.toNat) v.toNat h8 (lt_pow_blen _)]
  have htag : INT_ZERO_CODE + 8 - (8 - blen v.toNat) = INT_ZERO_CODE + blen v.toNat := by
    have := blen_pos v.toNat
    simp only [INT_ZERO_CODE]
    omega
  rw [htag]
  simp

/-- Canonical form of the negative-integer encoding (`i64::MIN` included):
    tag `0x14 - n` followed by the `n`-byte big-endian bytes of
    `256^n - 1 - |v|`. -/
theorem encode_int_neg (v : Int) (hlo : -(2 ^ 63) ≤ v) (hv : v < 0) :
    Segment.encode (Segment.Integer v) [] =
      (INT_ZERO_CODE - blen (-v).toNat) ::
        beBytes (blen (-v).toNat) (256 ^ blen (-v).toNat - 1 - (-v).toNat) := by
  have hne : v ≠ 0 := by omega
  by_cases hmin : v = -(2 ^ 63)
  · subst hmin
    have hm : ((-(-(2 ^ 63) : Int))).toNat = 2 ^ 63 := by omega
    rw [hm, blen_two_pow_63]
    have hshift : (2 ^ 64 - 1) >>> 1 = 2 ^ 63 - 1 := by
      rw [Nat.shiftRight_eq_div_pow]
      norm_num
    have hval : 256 ^ 8 - 1 - 2 ^ 63 = 2 ^ 63 - 1 := by norm_num
    simp only [Segment.encode, hshift, hval]
    norm_num
  · have hpos' : ¬ v > 0 := by omega
    simp only [Segment.encode]
    rw [if_neg hne, if_neg hmin, if_neg hpos', if_pos hv]
    have hm0 : (-v).toNat ≠ 0 := by omega
    have h8 : blen (-v).toNat ≤ 8 := blen_le_8 _ (by omega)
    rw [beBytes8_takeWhile (-v).toNat hm0 h8]
    have hnum : 8 - (8 - blen (-v).toNat) = blen (-v).toNat := by
      have := blen_pos (-v).toNat
      omega
    rw [hnum, size_limits_getD (blen (-v).toNat) (blen_pos _) h8]
    have hu : 256 ^ blen (-v).toNat - 1 - (-v).toNat < 256 ^ blen (-v).toNat := by
      have h1 := lt_pow_blen (-v).toNat
      have h2 : 0 < 256 ^ blen (-v).toNat := by positivity
      omega
    rw [beBytes8_drop (blen (-v).toNat) _ h8 hu]
    simp

/-- Order of two canonical positive-integer encodings is the numeric order
    of the magnitudes. -/
theorem pos_encoding_lt_iff (x y : Nat) (hx0 : x ≠ 0) (hy0 : y ≠ 0) :
    (lexLt ((INT_ZERO_CODE + blen x) :: beBytes (blen x) x)
        ((INT_ZERO_CODE + blen y) :: beBytes (blen y) y) = true) ↔ x < y := by
  rw [lexLt_cons_iff]
  rcases Nat.lt_trichotomy (blen x) (blen y) with hbl | hbl | hbl
  · have hxy := blen_lt_imp_lt x y hy0 hbl
    constructor
    · intro
      exact hxy
    · intro
      left
      simp only [INT_ZERO_CODE]
      omega
  · rw [hbl]
    have hbx : x < 256 ^ blen y := hbl ▸ lt_pow_blen x
    have hby : y < 256 ^ blen y := lt_pow_blen y
    rw [beBytes_lexLt (blen y) x y hbx hby]
    simp
  · have hyx := blen_lt_imp_lt y x hx0 hbl
    constructor
    · rintro (hh | ⟨hh, _⟩)
      · exfalso
        simp only [INT_ZERO_CODE] at hh
        omega
      · exfalso
        simp only [INT_ZERO_CODE] at hh
        omega
    · intro hxy
      exfalso
      omega

/-- Order of two canonical negative-integer encodings is the reversed
    numeric order of the magnitudes. -/
theorem neg_encoding_lt_iff (x y : Nat) (hx0 : x ≠ 0) (hy0 : y ≠ 0)
    (hx : x ≤ 2 ^ 63) (hy : y ≤ 2 ^ 63) :
    (lexLt ((INT_ZERO_CODE - blen x) :: beBytes (blen x) (256 ^ blen x - 1 - x))
        ((INT_ZERO_CODE - blen y) :: beBytes (blen y) (256 ^ blen y - 1 - y)) = true) ↔
      y < x := by
  have hx8 : blen x ≤ 8 := blen_le_8 x (by omega)
  have hy8 : blen y ≤ 8 := blen_le_8 y (by omega)
  rw [lexLt_cons_iff]
  rcases Nat.lt_trichotomy (blen x) (blen y) with hbl | hbl | hbl
  · have hxy := blen_lt_imp_lt x y hy0 hbl
    constructor
    · rintro (hh | ⟨hh, _⟩)
      · exfalso
        simp only [INT_ZERO_CODE] at hh
        omega
      · exfalso
        simp only [INT_ZERO_CODE] at hh
        omega
    · intro hyx
      exfalso
      omega
  · rw [hbl]
    have hbx : x < 256 ^ blen y := hbl ▸ lt_pow_blen x
    have hby : y < 256 ^ blen y := lt_pow_blen y
    have hux : 256 ^ blen y - 1 - x < 256 ^ blen y := by
      have : 0 < 256 ^ blen y := by positivity
      omega
    have huy : 256 ^ blen y - 1 - y < 256 ^ blen y := by
      have : 0 < 256 ^ blen y := by positivity
      omega
    rw [beBytes_lexLt (blen y) _ _ hux huy]
    simp only [Nat.lt_irrefl, false_or, true_and]
    constructor <;> intro h <;> omega
  · have hyx := blen_lt_imp_lt y x hx0 hbl
    constructor
    · intro
      exact hyx
    · intro
      left
      simp only [INT_ZERO_CODE]
      omega

/-- Claim C2: for all `i64` values `a`, `b`, `a < b` holds iff the encoding
    of `Segment::Integer(a)` is byte-lexicographically smaller than that of
    `Segment::Integer(b)`; the boundary values `i64::MIN`, `i64::MIN + 1`,
    `-256`, `-255`, `-1`, `0`, `1`, `255`, `256` and `i64::MAX` are instances
    of the universally quantified statement. -/
theorem C2_integer_order_preserving (a b : Int)
    (ha1 : -(2 ^ 63) ≤ a) (ha2 : a < 2 ^ 63) (hb1 : -(2 ^ 63) ≤ b) (hb2 : b < 2 ^ 63) :
    a < b ↔
      lexLt (Segment.encode (Segment.Integer a) [])
        (Segment.encode (Segment.Integer b) []) = true := by
  rcases Int.lt_trichotomy a 0 with hA | hA | hA <;>
    rcases Int.lt_trichotomy b 0 with hB | hB | hB
  · -- a < 0, b < 0
    rw [encode_int_neg a ha1 hA, encode_int_neg b hb1 hB,
      neg_encoding_lt_iff (-a).toNat (-b).toNat (by omega) (by omega) (by omega) (by omega)]
    omega
  · -- a < 0, b = 0
    subst hB
    rw [encode_int_neg a ha1 hA, encode_int_zero, lexLt_cons_iff]
    have h1 := blen_pos (-a).toNat
    have h8 := blen_le_8 (-a).toNat (by omega)
    constructor
    · intro
      left
      simp only [INT_ZERO_CODE]
      omega
    · intro
      exact hA
  · -- a < 0, b > 0
    rw [encode_int_neg a ha1 hA, encode_int_pos b hB hb2, lexLt_cons_iff]
    have h1 := blen_pos (-a).toNat
    have h8 := blen_le_8 (-a).toNat (by omega)
    have h1b := blen_pos b.toNat
    constructor
    · intro
      left
      simp only [INT_ZERO_CODE]
      omega
    · intro
      omega
  · -- a = 0, b < 0
    subst hA
    rw [encode_int_zero, encode_int_neg b hb1 hB, lexLt_cons_iff]
    have h1 := blen_pos (-b).toNat
    have h8 := blen_le_8 (-b).toNat (by omega)
    constructor
    · intro h
      exfalso
      omega
    · rintro (hh | ⟨hh, _⟩) <;>
        (exfalso
         simp only [INT_ZERO_CODE] at hh
         omega)
  · -- a = 0, b = 0
    subst hA
    subst hB
    rw [encode_int_zero, lexLt_cons_iff]
    simp [lexLt]
  · -- a = 0, b > 0
    subst hA
    rw [encode_int_zero, encode_int_pos b hB hb2, lexLt_cons_iff]
    have h1 := blen_pos b.toNat
    constructor
    · intro
      left
      simp only [INT_ZERO_CODE]
      omega
    · intro
      exact hB
  · -- a > 0, b < 0
    rw [encode_int_pos a hA ha2, encode_int_neg b hb1 hB, lexLt_cons_iff]
    have h1 := blen_pos a.toNat
    have h8 := blen_le_8 (-b).toNat (by omega)
    constructor
    · intro h
      exfalso
      omega
    · rintro (hh | ⟨hh, _⟩) <;>
        (exfalso
         simp only [INT_ZERO_CODE] at hh
         omega)
  · -- a > 0, b = 0
    subst hB
    rw [encode_int_pos a hA ha2, encode_int_zero, lexLt_cons_iff]
    have h1 := blen_pos a.toNat
    constructor
    · intro h
      exfalso
      omega
    · rintro (hh | ⟨hh, _⟩) <;>
        (exfalso
         simp only [INT_ZERO_CODE] at hh
         omega)
  · -- a > 0, b > 0
    rw [encode_int_pos a hA ha2, encode_int_pos b hB hb2,
      pos_encoding_lt_iff a.toNat b.toNat (by omega) (by omega)]
    omega

/-- Witness for C2 at the boundary pairs `(i64::MIN, i64::MIN + 1)` and
    `(255, 256)`. -/
theorem C2_integer_order_preserving_witness :
    lexLt (Segment.encode (Segment.Integer (-(2 ^ 63))) [])
        (Segment.encode (Segment.Integer (-(2 ^ 63) + 1)) []) = true ∧
      lexLt (Segment.encode (Segment.Integer 255) [])
        (Segment.encode (Segment.Integer 256) []) = true :=
  ⟨(C2_integer_order_preserving (-(2 ^ 63)) (-(2 ^ 63) + 1) (by decide) (by decide)
      (by decide) (by decide)).mp (by decide),
    (C2_integer_order_preserving 255 256 (by decide) (by decide) (by decide)
      (by decide)).mp (by decide)⟩

end BinaryTuples
